import Mathlib

/-!
# Verification of the `gutenberg-controls` repeater and color-popover logic

Shallow embedding of the list-manipulation logic of
`src/controls/repeater/index.tsx` (the `Repeater` component's
`handleDragEnd`, `addItem`, `removeItem`, `duplicateItem`,
`toggleCollapse` callbacks and the scroll-to-new effect) and of the
color `Popover`'s `onChange` handler.

JavaScript arrays of items are modelled as `List Item`; an operation
that may or may not call `setAttributes` returns an `Option` of the
emitted list (`none` = no `setAttributes` call, i.e. a no-op).
`arrayMove` (from `@dnd-kit/sortable`) can place the JavaScript value
`undefined` into the result when its source index is out of range, so
its result is a `List (Option Item)` (`none` = `undefined`).
-/

namespace GutenbergControls

/-- One repeater row, from `src/controls/repeater/types` as used in
`index.tsx`: `{ id, label, value, collapsed }`; `value` holds the
`Date.now()` timestamp number. -/
structure Item where
  id : Int
  label : String
  value : Int
  collapsed : Bool
deriving DecidableEq, Repr

/-- The slice of the per-control configuration object that the repeater
callbacks read: `control?.preventEmpty`.  The control object itself may
be absent (`undefined`), and so may the `preventEmpty` field. -/
structure Control where
  preventEmpty : Option Bool
deriving DecidableEq, Repr

/-- The drag event `DragEndEvent` consumed from `@dnd-kit/core`: `{ active: {id},
over: {id} | null }`.  Ids of sortable items are the numeric item ids. -/
structure DragEndEvent where
  activeId : Int
  overId : Option Int
deriving DecidableEq, Repr

/-- JS `Array.prototype.findIndex` over an array: index of the first
element satisfying the predicate, `-1` if none. -/
def jsFindIndex (p : α → Bool) (l : List α) : Int :=
  match l.findIdx? p with
  | some i => (i : Int)
  | none => -1

/-- The actual start index used by `Array.prototype.splice(start, ...)`
on an array of length `len`: a negative `start` counts from the end and
is clamped at `0`; a nonnegative `start` is clamped at `len`. -/
def jsSpliceStart (len : Nat) (start : Int) : Nat :=
  if start < 0 then (start + len).toNat else min start.toNat len

/-- The function `arrayMove` from `@dnd-kit/sortable`
(`src/utilities/arrayMove.ts` of that package):

```ts
export function arrayMove<T>(array: T[], from: number, to: number): T[] {
  const newArray = array.slice();
  newArray.splice(
    to < 0 ? newArray.length + to : to,
    0,
    newArray.splice(from, 1)[0]
  );
  return newArray;
}
```

The insertion index `to < 0 ? newArray.length + to : to` is evaluated
before the inner `splice` mutates `newArray` (JS argument order), so it
uses the original length; the outer `splice` then clamps it again
against the shortened array.  `newArray.splice(from, 1)[0]` is
`undefined` when the clamped `from` is out of range (only possible on
an empty array for `from ≥ -len`), and `splice` inserts that
`undefined` value regardless; hence the result lives in
`List (Option α)` with `none` standing for `undefined`. -/
def arrayMove (array : List α) (f t : Int) : List (Option α) :=
  let insertIdxRaw : Int := if t < 0 then (array.length : Int) + t else t
  let s := jsSpliceStart array.length f
  let removed : Option α := array.get? s
  let rest := array.eraseIdx s
  List.insertIdx (jsSpliceStart rest.length insertIdxRaw) removed (rest.map some)

/-- The callback `handleDragEnd` (lines 55–69 of `src/controls/repeater/index.tsx`):

```ts
const { active, over } = event;
if ( ! over || active.id === over.id ) return;
const oldIndex = attribute.findIndex( (item) => item.id === active.id );
const newIndex = attribute.findIndex( (item) => item.id === over.id );
const newAttributes = arrayMove( attribute, oldIndex, newIndex );
setAttributes( { [attr_key]: newAttributes } );
```

`none` = early return (no `setAttributes` call); `some l` = the list
passed to `setAttributes`. -/
def handleDragEnd (attr : List Item) (event : DragEndEvent) :
    Option (List (Option Item)) :=
  match event.overId with
  | none => none
  | some overId =>
    if event.activeId = overId then none
    else
      let oldIndex := jsFindIndex (fun item => item.id == event.activeId) attr
      let newIndex := jsFindIndex (fun item => item.id == overId) attr
      some (arrayMove attr oldIndex newIndex)

/-- Modelled from the spec: `getMaxId` is imported from
`src/controls/repeater/utils`, which is not among the sources; the spec
says "compute `newId = max(existing ids) + 1` (treat empty list as
max = 0, so first id = 1)", so `getMaxId` is the maximum of the
existing ids, `0` on an empty list. -/
def getMaxId (attr : List Item) : Int :=
  match attr.map (fun item => item.id) with
  | [] => 0
  | x :: xs => xs.foldl max x

/-- The callback `addItem` (lines 82–92): appends
`{ id: getMaxId(attribute) + 1, label: 'New Item', value: Date.now(),
collapsed: true }`.  The nondeterministic `Date.now()` is the `now`
parameter.  (The accompanying `setNewItemAdded(true)` is modelled by
`addItemStep` below.) -/
def addItem (attr : List Item) (now : Int) : List Item :=
  attr ++ [{ id := getMaxId attr + 1, label := "New Item",
                  value := now, collapsed := true }]

/-- The flag `isDisabledRemove` (lines 94–96):
`(undefined === control?.preventEmpty || control.preventEmpty) && attribute.length === 1`.
`control?.preventEmpty` is `undefined` when `control` itself is absent. -/
def isDisabledRemove (control : Option Control) (attr : List Item) : Bool :=
  (match control with
   | none => true
   | some c =>
     match c.preventEmpty with
     | none => true
     | some b => b) && attr.length == 1

/-- The callback `removeItem` (lines 98–109): early return when `isDisabledRemove`,
otherwise emit `attribute.filter( (item) => item.id !== id )`. -/
def removeItem (control : Option Control) (attr : List Item) (id : Int) :
    Option (List Item) :=
  if isDisabledRemove control attr then none
  else some (attr.filter (fun item => item.id != id))

/-- The callback `duplicateItem` (lines 111–126): find the item with the given id;
if found, append a copy of it with id `getMaxId(attribute) + 1`;
otherwise do nothing. -/
def duplicateItem (attr : List Item) (id : Int) : Option (List Item) :=
  match attr.find? (fun item => item.id == id) with
  | none => none
  | some itemToDuplicate =>
    some (attr ++ [{ itemToDuplicate with id := getMaxId attr + 1 }])

/-- The callback `toggleCollapse` (lines 128–136): map over the list, flipping
`collapsed` of the item whose id matches. -/
def toggleCollapse (attr : List Item) (id : Int) : List Item :=
  attr.map (fun item =>
    if item.id == id then { item with collapsed := !item.collapsed } else item)

/-- The ids of a list of items. -/
def ids (l : List Item) : List Int := l.map (fun item => item.id)

/-- The distinct-ids invariant of the data model. -/
def distinctIds (l : List Item) : Prop := (ids l).Nodup

/-- Ids of a JS array that may contain `undefined` holes (`undefined`
carries no id). -/
def idsOpt (l : List (Option Item)) : List Int :=
  l.filterMap (fun o => o.map (fun item => item.id))

/-- Distinct-ids invariant for a possibly-holed JS array. -/
def distinctIdsOpt (l : List (Option Item)) : Prop := (idsOpt l).Nodup

instance (l : List Item) : Decidable (distinctIds l) :=
  inferInstanceAs (Decidable (ids l).Nodup)

instance (l : List (Option Item)) : Decidable (distinctIdsOpt l) :=
  inferInstanceAs (Decidable (idsOpt l).Nodup)

/-! ### Scroll-to-new state machine

The component state relevant to the deferred scroll: the `attribute`
list held by the host and the `newItemAdded` boolean from `useState`.
The host framework commits a state update and then runs the effect of
lines 71–80, so an "add" is one `addItemStep` followed by
`scrollEffect` runs on the committed state (the spec's §5 ordering
contract of the framework is built into this step order). -/

structure RepeaterState where
  attr : List Item
  newItemAdded : Bool
deriving DecidableEq, Repr

/-- The effect body of `useEffect` (lines 71–80): if `newItemAdded` and the list
ref is mounted, scroll to the bottom and clear the flag; the returned
`Bool` records whether the scroll fired during this run. -/
def scrollEffect (s : RepeaterState) (refPresent : Bool) : RepeaterState × Bool :=
  if s.newItemAdded && refPresent then
    ({ s with newItemAdded := false }, true)
  else (s, false)

/-- The click handler of `addItem`, as a handler's state transition:
`setAttributes({[attr_key]: newAttributes})` plus `setNewItemAdded(true)`. -/
def addItemStep (s : RepeaterState) (now : Int) : RepeaterState :=
  { attr := addItem s.attr now, newItemAdded := true }

/-! ### Color-picker `Popover.onChange`

String-keyed JS objects are modelled as functions into `Option`
(`none` = key absent / `undefined`); spreading `{...obj, [k]: v}` is
`Function.update`, and spreading a possibly-`undefined` object is
`Option.getD` against the empty map. -/

/-- A map from color keys to color values. -/
def ColorMap : Type := String → Option String

/-- A map from element names to their color maps
(= `attributes[attrKey]`). -/
def ElementMap : Type := String → Option ColorMap

/-- The host attribute store, keyed by attribute key. -/
def Attrs : Type := String → Option ElementMap

/-- The empty JS object, as a map. -/
def emptyMap {β : Type} : String → Option β := fun _ => none

/-- The handler `onChange` of `Popover` (lines 39–49 of the unnamed color-popover
source file):

```ts
setAttributes( {
  [ attrKey ]: {
    ...attributes[ attrKey ],
    [ element.name ]: {
      ...elementColors,
      [ colorKey ]: value ?? '',
    },
  },
} );
```

`value : Option String` models the incoming color value with `none`
for `null`/`undefined`, so `value ?? ''` is `value.getD ""`;
`elementColors` is the `elementColors` prop (possibly `undefined`).
`setAttributes` merges, so keys other than `attrKey` keep their old
entries. -/
def popoverOnChange (attributes : Attrs) (attrKey elementName : String)
    (elementColors : Option ColorMap) (colorKey : String)
    (value : Option String) : Attrs :=
  Function.update attributes attrKey
    (some (Function.update ((attributes attrKey).getD emptyMap) elementName
      (some (Function.update (elementColors.getD emptyMap) colorKey
        (some (value.getD ""))))))

/-! ### Helper lemmas -/

theorem map_insertIdx (f : α → β) :
    ∀ (j : Nat) (m : List α) (x : α),
      (List.insertIdx j x m).map f = List.insertIdx j (f x) (m.map f)
  | 0, m, x => rfl
  | j + 1, [], x => rfl
  | j + 1, a :: m, x => by
    simp only [List.insertIdx_succ_cons, List.map_cons, map_insertIdx f j m x]

theorem findIdx?_some_spec {p : α → Bool} :
    ∀ {l : List α} {i : Nat}, l.findIdx? p = some i →
      ∃ hi : i < l.length, p (l.get ⟨i, hi⟩) = true := by
  intro l
  induction l with
  | nil => intro i h; simp [List.findIdx?_nil] at h
  | cons a m ih =>
    intro i h
    rw [List.findIdx?_cons] at h
    by_cases hp : p a
    · rw [if_pos hp] at h
      cases h
      exact ⟨Nat.succ_pos _, hp⟩
    · rw [if_neg hp, List.findIdx?_succ] at h
      obtain ⟨j, hj, hji⟩ := Option.map_eq_some'.mp h
      subst hji
      obtain ⟨hjl, hpj⟩ := ih hj
      exact ⟨Nat.succ_lt_succ hjl, hpj⟩

theorem findIdx?_none_of_not_mem {l : List Item} {x : Int}
    (h : x ∉ ids l) : l.findIdx? (fun item => item.id == x) = none := by
  rw [List.findIdx?_eq_none_iff]
  intro item hmem
  simp only [beq_eq_false_iff_ne, ne_eq]
  intro hid
  exact h (by simpa [ids, ← hid] using List.mem_map_of_mem (fun it => it.id) hmem)

theorem jsSpliceStart_le (len : Nat) (start : Int) : jsSpliceStart len start ≤ len := by
  unfold jsSpliceStart
  split
  · omega
  · exact min_le_right _ _

theorem jsSpliceStart_coe_of_le {i len : Nat} (h : i ≤ len) :
    jsSpliceStart len (i : Int) = i := by
  unfold jsSpliceStart
  rw [if_neg (by omega)]
  simp [Nat.min_eq_left h]

theorem jsSpliceStart_neg_one (len : Nat) : jsSpliceStart len (-1) = len - 1 := by
  unfold jsSpliceStart
  rw [if_pos (by omega)]
  omega

theorem arrayMove_of_lt (l : List α) (i j : Nat) (hi : i < l.length)
    (hj : j < l.length) :
    arrayMove l (i : Int) (j : Int) =
      ((l.eraseIdx i).insertIdx j l[i]).map some := by
  have hlen : (l.eraseIdx i).length = l.length - 1 := by
    simp [List.length_eraseIdx, hi]
  simp only [arrayMove]
  rw [if_neg (by omega), jsSpliceStart_coe_of_le (Nat.le_of_lt hi), hlen,
    jsSpliceStart_coe_of_le (by omega), List.get?_eq_getElem?,
    List.getElem?_eq_getElem hi, map_insertIdx]

theorem perm_cons_getElem_eraseIdx (l : List α) (i : Nat) (hi : i < l.length) :
    l.Perm (l.get ⟨i, hi⟩ :: l.eraseIdx i) := by
  conv_lhs => rw [← List.take_append_drop i l, List.drop_eq_getElem_cons hi]
  rw [List.eraseIdx_eq_take_drop_succ]
  exact List.perm_middle

theorem le_foldl_max_init : ∀ (l : List Int) (b : Int), b ≤ l.foldl max b := by
  intro l
  induction l with
  | nil => intro b; exact le_refl b
  | cons a m ih =>
    intro b
    exact le_trans (le_max_left b a) (ih (max b a))

theorem le_foldl_max_of_mem :
    ∀ {x : Int} {l : List Int} (_ : x ∈ l) (b : Int), x ≤ l.foldl max b := by
  intro x l
  induction l with
  | nil => intro h; exact absurd h (List.not_mem_nil x)
  | cons a m ih =>
    intro h b
    rcases List.mem_cons.mp h with rfl | hm
    · exact le_trans (le_max_right b x) (le_foldl_max_init m (max b x))
    · exact ih hm (max b a)

theorem le_getMaxId {x : Item} {l : List Item} (h : x ∈ l) : x.id ≤ getMaxId l := by
  match l with
  | [] => exact absurd h (List.not_mem_nil x)
  | a :: m =>
    show x.id ≤ (m.map (fun item => item.id)).foldl max a.id
    rcases List.mem_cons.mp h with rfl | hm
    · exact le_foldl_max_init _ _
    · exact le_foldl_max_of_mem (List.mem_map_of_mem (fun item => item.id) hm) _

theorem getMaxId_append_singleton {l : List Item} (hne : l ≠ []) (v : Item) :
    getMaxId (l ++ [v]) = max (getMaxId l) v.id := by
  match l with
  | [] => exact absurd rfl hne
  | a :: m =>
    show ((m ++ [v]).map (fun item => item.id)).foldl max a.id =
      max ((m.map (fun item => item.id)).foldl max a.id) v.id
    rw [List.map_append, List.foldl_append]
    rfl

theorem ids_toggleCollapse (l : List Item) (id : Int) :
    ids (toggleCollapse l id) = ids l := by
  unfold ids toggleCollapse
  rw [List.map_map]
  refine List.map_congr_left ?_
  intro a _
  by_cases h : a.id == id <;> simp [Function.comp, h]

theorem length_filter_id_eq_one {l : List Item} {id : Int}
    (hd : distinctIds l) (hmem : id ∈ ids l) :
    (l.filter (fun item => item.id == id)).length = 1 := by
  have hcount : List.count id (ids l) = 1 := List.count_eq_one_of_mem hd hmem
  rw [← List.countP_eq_length_filter]
  rw [List.count, ids, List.countP_map] at hcount
  exact hcount

theorem arrayMove_neg_one_neg_one {l : List α} (hne : l ≠ []) :
    arrayMove l (-1) (-1) = l.map some := by
  have hlen : 0 < l.length := List.length_pos.mpr hne
  have hrest : (l.eraseIdx (l.length - 1)).length = l.length - 1 := by
    simp only [List.length_eraseIdx]
    rw [if_pos (by omega)]
  have hdrop : l.eraseIdx (l.length - 1) = l.dropLast :=
    (List.dropLast_eq_eraseIdx (by omega)).symm
  have hcast : (l.length : Int) + (-1) = ((l.length - 1 : Nat) : Int) := by omega
  simp only [arrayMove]
  rw [if_pos (by omega), jsSpliceStart_neg_one, hcast, hrest,
    jsSpliceStart_coe_of_le (le_refl _)]
  have hpos : ((l.eraseIdx (l.length - 1)).map some).length = l.length - 1 := by
    rw [List.length_map, hrest]
  have hins := List.insertIdx_length_self
    ((l.eraseIdx (l.length - 1)).map some) (l.get? (l.length - 1))
  rw [hpos] at hins
  rw [hins, List.get?_eq_getElem?, List.getElem?_eq_getElem (by omega), hdrop]
  have hlast : l.dropLast ++ [l[l.length - 1]] = l := by
    rw [← List.getLast_eq_getElem]
    exact List.dropLast_append_getLast hne
  calc List.map some l.dropLast ++ [some l[l.length - 1]]
      = List.map some (l.dropLast ++ [l[l.length - 1]]) := by
        rw [List.map_append]
        rfl
    _ = List.map some l := by rw [hlast]

theorem distinctIds_append_fresh {l : List Item} (hd : distinctIds l) {v : Item}
    (hv : v.id = getMaxId l + 1) : distinctIds (l ++ [v]) := by
  show (ids (l ++ [v])).Nodup
  rw [ids, List.map_append, List.nodup_append]
  refine ⟨hd, List.nodup_singleton _, ?_⟩
  intro x hx hmem
  obtain ⟨it, hit, hitx⟩ := List.mem_map.mp hx
  have hle : it.id ≤ getMaxId l := le_getMaxId hit
  have hxv : x = v.id := by simpa using hmem
  omega

theorem idsOpt_map_some (l : List Item) : idsOpt (l.map some) = ids l := by
  rw [idsOpt, List.filterMap_map]
  show List.filterMap (some ∘ fun item => item.id) l = _
  rw [List.filterMap_eq_map]
  rfl

theorem idsOpt_cons_some (x : Item) (xs : List (Option Item)) :
    idsOpt (some x :: xs) = x.id :: idsOpt xs := rfl

theorem idsOpt_cons_none (xs : List (Option Item)) :
    idsOpt (none :: xs) = idsOpt xs := rfl

theorem distinctIdsOpt_arrayMove {l : List Item} (hd : distinctIds l) (f t : Int) :
    distinctIdsOpt (arrayMove l f t) := by
  show (idsOpt (arrayMove l f t)).Nodup
  have hperm : (arrayMove l f t).Perm
      (l.get? (jsSpliceStart l.length f) ::
        (l.eraseIdx (jsSpliceStart l.length f)).map some) := by
    simp only [arrayMove]
    exact List.perm_insertIdx _ _
      (by rw [List.length_map]; exact jsSpliceStart_le _ _)
  have hids0 := hperm.filterMap (fun o : Option Item => o.map (fun item => item.id))
  have hids : (idsOpt (arrayMove l f t)).Perm
      (idsOpt (l.get? (jsSpliceStart l.length f) ::
        (l.eraseIdx (jsSpliceStart l.length f)).map some)) := hids0
  rw [hids.nodup_iff]
  by_cases hlt : jsSpliceStart l.length f < l.length
  · rw [List.get?_eq_getElem?, List.getElem?_eq_getElem hlt, idsOpt_cons_some,
      idsOpt_map_some]
    have hp := (perm_cons_getElem_eraseIdx l (jsSpliceStart l.length f) hlt).map
      (fun item => item.id)
    exact (hp.nodup_iff).mp hd
  · rw [List.get?_eq_none.mpr (by omega), List.eraseIdx_of_length_le (by omega),
      idsOpt_cons_none, idsOpt_map_some]
    exact hd

theorem isDisabledRemove_iff (control : Option Control) (l : List Item) :
    isDisabledRemove control l = true ↔
      (control.bind Control.preventEmpty ≠ some false ∧ l.length = 1) := by
  unfold isDisabledRemove
  cases control with
  | none => simp
  | some c =>
    cases hb : c.preventEmpty with
    | none => simp [Option.bind, hb]
    | some b => cases b <;> simp [Option.bind, hb]

/-! ### Claims -/

/-- C3: for every item list, `addItem` emits the original list with
exactly one new item appended at the end, whose id is
`max(existing ids) + 1`, whose label is the default label `"New Item"`,
and whose `collapsed` flag is `true`; on an empty list the new item has
id `1`, and on a non-empty list the new maximum id equals the old
maximum plus `1`. -/
theorem add_item_spec (l : List Item) (now : Int) :
    addItem l now =
      l ++ [{ id := getMaxId l + 1, label := "New Item", value := now,
              collapsed := true }] ∧
    (l = [] → addItem l now =
      [{ id := 1, label := "New Item", value := now, collapsed := true }]) ∧
    (l ≠ [] → getMaxId (addItem l now) = getMaxId l + 1) := by
  refine ⟨rfl, ?_, ?_⟩
  · rintro rfl; rfl
  · intro hne
    show getMaxId (l ++ [_]) = _
    rw [getMaxId_append_singleton hne]
    show max (getMaxId l) (getMaxId l + 1) = getMaxId l + 1
    exact max_eq_right (by omega)

theorem add_item_spec_witness :
    ([(⟨5, "a", 0, false⟩ : Item)] ≠ []) ∧
    getMaxId (addItem [(⟨5, "a", 0, false⟩ : Item)] 7) = 6 :=
  ⟨by decide, (add_item_spec [⟨5, "a", 0, false⟩] 7).2.2 (by decide)⟩

/-- C9: whenever the prevent-empty guard does not disable removal,
`removeItem id` emits a list in which no item with that id remains,
even on a list violating the distinct-ids invariant: the filter removes
every occurrence, not just the first. -/
theorem remove_item_removes_all_occurrences (control : Option Control)
    (l : List Item) (id : Int) (h : isDisabledRemove control l = false) :
    ∃ l', removeItem control l id = some l' ∧ ∀ x ∈ l', x.id ≠ id := by
  refine ⟨l.filter (fun item => item.id != id), by simp [removeItem, h], ?_⟩
  intro x hx
  have hmem := List.mem_filter.mp hx
  simpa using hmem.2

theorem remove_item_removes_all_occurrences_witness :
    ∃ l', removeItem none
        [(⟨1, "a", 0, true⟩ : Item), ⟨1, "b", 0, true⟩, ⟨2, "c", 0, true⟩] 1 =
        some l' ∧ ∀ x ∈ l', x.id ≠ 1 :=
  remove_item_removes_all_occurrences none
    [⟨1, "a", 0, true⟩, ⟨1, "b", 0, true⟩, ⟨2, "c", 0, true⟩] 1 (by decide)

/-- C8: an add sets the `newItemAdded` flag and commits the new list;
the effect run that follows the commit fires the scroll exactly once,
observing the post-add list, and clears the flag immediately, so a
later effect run (with no new add in between) fires no second scroll;
and no scroll fires while the flag is down (never before an add). -/
theorem scroll_effect_spec (s : RepeaterState) (now : Int) (rp : Bool) :
    (scrollEffect (addItemStep s now) true).2 = true ∧
    (scrollEffect (addItemStep s now) true).1.attr = addItem s.attr now ∧
    (scrollEffect (addItemStep s now) true).1.newItemAdded = false ∧
    (scrollEffect (scrollEffect (addItemStep s now) true).1 rp).2 = false ∧
    (s.newItemAdded = false → (scrollEffect s rp).2 = false) := by
  refine ⟨rfl, rfl, rfl, by simp [scrollEffect, addItemStep], ?_⟩
  intro h
  simp [scrollEffect, h]

theorem scroll_effect_spec_witness :
    ((⟨[⟨1, "a", 0, true⟩], false⟩ : RepeaterState).newItemAdded = false) ∧
    (scrollEffect ⟨[(⟨1, "a", 0, true⟩ : Item)], false⟩ true).2 = false :=
  ⟨rfl, (scroll_effect_spec ⟨[⟨1, "a", 0, true⟩], false⟩ 9 true).2.2.2.2 rfl⟩

/-- C5: `duplicateItem id` is a no-op when no item has the given id;
when the first item with that id is found, it emits a list of length
`n + 1` equal to the original with one new item appended at the end,
equal to the source item in every field except its id, which is
`max(existing ids) + 1`. -/
theorem duplicate_item_spec (l : List Item) (id : Int) :
    (id ∉ ids l → duplicateItem l id = none) ∧
    (∀ l', duplicateItem l id = some l' → l'.length = l.length + 1) ∧
    (id ∈ ids l → ∃ src,
      l.find? (fun item => item.id == id) = some src ∧ src.id = id ∧
      duplicateItem l id =
        some (l ++ [{ id := getMaxId l + 1, label := src.label,
                      value := src.value, collapsed := src.collapsed }])) := by
  refine ⟨?_, ?_, ?_⟩
  · intro habs
    have hfind : l.find? (fun item => item.id == id) = none := by
      rw [List.find?_eq_none]
      intro x hx
      simp only [beq_iff_eq]
      intro hxe
      exact habs (hxe ▸ List.mem_map_of_mem (fun it => it.id) hx)
    simp [duplicateItem, hfind]
  · intro l' h
    unfold duplicateItem at h
    cases hfind : l.find? (fun item => item.id == id) with
    | none => rw [hfind] at h; cases h
    | some src =>
      rw [hfind] at h
      cases h
      simp
  · intro hmem
    obtain ⟨x, hx, hxe⟩ := List.mem_map.mp hmem
    have hsome : (l.find? (fun item => item.id == id)).isSome = true :=
      List.find?_isSome.mpr
        ⟨x, hx, by show (x.id == id) = true; exact beq_iff_eq.mpr hxe⟩
    obtain ⟨src, hfind⟩ := Option.isSome_iff_exists.mp hsome
    refine ⟨src, hfind, by simpa using List.find?_some hfind, ?_⟩
    simp [duplicateItem, hfind]

theorem duplicate_item_spec_witness :
    (2 : Int) ∈ ids [(⟨1, "a", 3, false⟩ : Item), ⟨2, "b", 4, true⟩] ∧
    ∃ src,
      [(⟨1, "a", 3, false⟩ : Item), ⟨2, "b", 4, true⟩].find?
        (fun item => item.id == 2) = some src ∧ src.id = 2 ∧
      duplicateItem [(⟨1, "a", 3, false⟩ : Item), ⟨2, "b", 4, true⟩] 2 =
        some ([(⟨1, "a", 3, false⟩ : Item), ⟨2, "b", 4, true⟩] ++
          [{ id := getMaxId [(⟨1, "a", 3, false⟩ : Item), ⟨2, "b", 4, true⟩] + 1,
             label := src.label, value := src.value,
             collapsed := src.collapsed }]) :=
  ⟨by decide,
    (duplicate_item_spec [⟨1, "a", 3, false⟩, ⟨2, "b", 4, true⟩] 2).2.2 (by decide)⟩

/-- C6: on a list with pairwise-distinct ids containing the given id,
`toggleCollapse id` keeps the length and order, pointwise flips the
`collapsed` flag of the matching item and leaves every other item (and
every other field) unchanged, exactly one item matches the id,
toggling twice returns the original list, and toggling an absent id is
a no-op. -/
theorem toggle_collapse_spec (l : List Item) (id : Int)
    (hd : distinctIds l) (hmem : id ∈ ids l) :
    (toggleCollapse l id).length = l.length ∧
    (∀ k : Nat, (toggleCollapse l id).get? k =
      (l.get? k).map (fun item =>
        if item.id == id then { item with collapsed := !item.collapsed }
        else item)) ∧
    (l.filter (fun item => item.id == id)).length = 1 ∧
    toggleCollapse (toggleCollapse l id) id = l ∧
    (∀ id', id' ∉ ids l → toggleCollapse l id' = l) := by
  refine ⟨by simp [toggleCollapse], ?_, length_filter_id_eq_one hd hmem, ?_, ?_⟩
  · intro k
    simp [toggleCollapse, List.get?_map]
  · show (l.map _).map _ = l
    rw [List.map_map]
    have hpt : ∀ a ∈ l,
        ((fun item : Item =>
            if item.id == id then { item with collapsed := !item.collapsed }
            else item) ∘
          (fun item : Item =>
            if item.id == id then { item with collapsed := !item.collapsed }
            else item)) a = (fun a : Item => a) a := by
      intro a _
      by_cases h : a.id == id <;> simp [Function.comp, h, Bool.not_not]
    exact (List.map_congr_left hpt).trans (List.map_id' l)
  · intro id' habs
    have hpt : ∀ a ∈ l,
        (fun item : Item =>
          if item.id == id' then { item with collapsed := !item.collapsed }
          else item) a = (fun a : Item => a) a := by
      intro a ha
      refine if_neg ?_
      intro h
      exact habs (beq_iff_eq.mp h ▸ List.mem_map_of_mem (fun it => it.id) ha)
    exact (List.map_congr_left hpt).trans (List.map_id' l)

/-- C4: with the prevent-empty policy in force (the default whenever
`control.preventEmpty` is not explicitly `false`) and exactly one item
in the list, `removeItem` is a no-op for any id; otherwise it emits the
list filtered of the item with the given id, keeping the remaining
items' relative order (a sublist), with length `n − 1` when the id
exists among pairwise-distinct ids, and unchanged when the id is
absent. -/
theorem remove_item_spec (control : Option Control) (l : List Item) (id : Int) :
    (control.bind Control.preventEmpty ≠ some false → l.length = 1 →
      removeItem control l id = none) ∧
    (¬(control.bind Control.preventEmpty ≠ some false ∧ l.length = 1) →
      removeItem control l id = some (l.filter (fun item => item.id != id)) ∧
      (l.filter (fun item => item.id != id)).Sublist l ∧
      (id ∉ ids l → l.filter (fun item => item.id != id) = l) ∧
      (distinctIds l → id ∈ ids l →
        (l.filter (fun item => item.id != id)).length + 1 = l.length)) := by
  constructor
  · intro hpe hlen
    have hdis : isDisabledRemove control l = true :=
      (isDisabledRemove_iff control l).mpr ⟨hpe, hlen⟩
    simp [removeItem, hdis]
  · intro hnot
    have hdis : isDisabledRemove control l = false := by
      rcases Bool.eq_false_or_eq_true (isDisabledRemove control l) with h | h
      · exact absurd ((isDisabledRemove_iff control l).mp h) hnot
      · exact h
    refine ⟨by simp [removeItem, hdis], List.filter_sublist l, ?_, ?_⟩
    · intro habs
      rw [List.filter_eq_self]
      intro a ha
      simp only [bne_iff_ne, ne_eq, decide_not]
      intro h
      exact habs (h ▸ List.mem_map_of_mem (fun it => it.id) ha)
    · intro hd hmem
      have h1 := length_filter_id_eq_one hd hmem
      have h2 := List.length_eq_countP_add_countP (fun item => item.id == id) l
      rw [List.countP_eq_length_filter, List.countP_eq_length_filter] at h2
      have hfun : (fun a : Item => decide ¬((fun item => item.id == id) a = true)) =
          (fun item : Item => item.id != id) := by
        funext a
        by_cases h : a.id = id <;> simp [bne, h]
      rw [hfun] at h2
      omega

theorem remove_item_spec_witness :
    removeItem none [(⟨1, "a", 0, true⟩ : Item)] 99 = none ∧
    removeItem (some ⟨some false⟩) [(⟨1, "a", 0, true⟩ : Item)] 1 =
      some ([(⟨1, "a", 0, true⟩ : Item)].filter (fun item => item.id != 1)) ∧
    ([(⟨1, "a", 0, true⟩ : Item), ⟨2, "b", 0, true⟩].filter
        (fun item => item.id != 1)).length + 1 =
      [(⟨1, "a", 0, true⟩ : Item), ⟨2, "b", 0, true⟩].length :=
  ⟨(remove_item_spec none [⟨1, "a", 0, true⟩] 99).1 (by decide) (by decide),
   ((remove_item_spec (some ⟨some false⟩) [⟨1, "a", 0, true⟩] 1).2 (by decide)).1,
   ((remove_item_spec none [⟨1, "a", 0, true⟩, ⟨2, "b", 0, true⟩] 1).2
      (by decide)).2.2.2 (by decide) (by decide)⟩

/-- C10: the color `Popover`'s `onChange(colorKey, value)` writes the
value (or the empty string when the value is `null`/`undefined`) under
`attributes[attrKey][element.name][colorKey]`, and — given that the
`elementColors` prop is the element's current color map — leaves every
other color key of that element, every other element entry under
`attrKey`, and every other attribute key unchanged. -/
theorem popover_on_change_spec (attributes : Attrs) (attrKey elementName : String)
    (elementColors : Option ColorMap) (colorKey : String) (value : Option String)
    (hcolors : elementColors = (attributes attrKey).getD emptyMap elementName) :
    ∃ em cm,
      popoverOnChange attributes attrKey elementName elementColors colorKey value
        attrKey = some em ∧
      em elementName = some cm ∧
      (∀ v, value = some v → cm colorKey = some v) ∧
      (value = none → cm colorKey = some "") ∧
      (∀ k, k ≠ colorKey →
        cm k = ((attributes attrKey).getD emptyMap elementName).getD emptyMap k) ∧
      (∀ e, e ≠ elementName → em e = (attributes attrKey).getD emptyMap e) ∧
      (∀ a, a ≠ attrKey →
        popoverOnChange attributes attrKey elementName elementColors colorKey value
          a = attributes a) := by
  refine ⟨Function.update ((attributes attrKey).getD emptyMap) elementName
      (some (Function.update (elementColors.getD emptyMap) colorKey
        (some (value.getD "")))),
    Function.update (elementColors.getD emptyMap) colorKey (some (value.getD "")),
    ?_, ?_, ?_, ?_, ?_, ?_, ?_⟩
  · unfold popoverOnChange
    rw [Function.update_same]
  · rw [Function.update_same]
  · rintro v rfl
    rw [Function.update_same]
    rfl
  · rintro rfl
    rw [Function.update_same]
    rfl
  · intro k hk
    rw [Function.update_noteq hk, hcolors]
  · intro e he
    rw [Function.update_noteq he]
  · intro a ha
    unfold popoverOnChange
    rw [Function.update_noteq ha]

theorem popover_on_change_spec_witness :
    (none : Option ColorMap) =
      (((fun _ => none : Attrs) "style").getD emptyMap) "button" ∧
    ∃ em cm,
      popoverOnChange (fun _ => none : Attrs) "style" "button" none "text"
        (some "red") "style" = some em ∧
      em "button" = some cm ∧
      (∀ v, (some "red" : Option String) = some v → cm "text" = some v) ∧
      ((some "red" : Option String) = none → cm "text" = some "") ∧
      (∀ k, k ≠ "text" →
        cm k = ((((fun _ => none : Attrs) "style").getD emptyMap) "button").getD
          emptyMap k) ∧
      (∀ e, e ≠ "button" →
        em e = (((fun _ => none : Attrs) "style").getD emptyMap) e) ∧
      (∀ a, a ≠ "style" →
        popoverOnChange (fun _ => none : Attrs) "style" "button" none "text"
          (some "red") a = (fun _ => none : Attrs) a) :=
  ⟨rfl, popover_on_change_spec (fun _ => none) "style" "button" none "text"
    (some "red") rfl⟩

theorem toggle_collapse_spec_witness :
    distinctIds [(⟨1, "a", 0, false⟩ : Item), ⟨2, "b", 0, true⟩] ∧
    (1 : Int) ∈ ids [(⟨1, "a", 0, false⟩ : Item), ⟨2, "b", 0, true⟩] ∧
    toggleCollapse
      (toggleCollapse [(⟨1, "a", 0, false⟩ : Item), ⟨2, "b", 0, true⟩] 1) 1 =
      [(⟨1, "a", 0, false⟩ : Item), ⟨2, "b", 0, true⟩] :=
  ⟨by decide, by decide,
    (toggle_collapse_spec [⟨1, "a", 0, false⟩, ⟨2, "b", 0, true⟩] 1
      (by decide) (by decide)).2.2.2.1⟩

/-- C1 (counterexample): a drag-end event whose `active.id` is not in
the list (over non-null, distinct from active) is *not* a no-op:
`findIndex` yields `-1`, and `arrayMove` then moves the *last* item to
the `over` position — here `[1,2,3]` with `active = 99`, `over = 1`
emits `[3,1,2]`.  On an empty list such an event emits `[undefined]`,
also not the unchanged list. -/
theorem drag_end_missing_id_counterexample :
    handleDragEnd
        [⟨1, "a", 0, true⟩, ⟨2, "b", 0, true⟩, ⟨3, "c", 0, true⟩]
        ⟨99, some 1⟩ =
      some [some ⟨3, "c", 0, true⟩, some ⟨1, "a", 0, true⟩,
        some ⟨2, "b", 0, true⟩] ∧
    some [some (⟨3, "c", 0, true⟩ : Item), some ⟨1, "a", 0, true⟩,
        some ⟨2, "b", 0, true⟩] ≠
      some (([⟨1, "a", 0, true⟩, ⟨2, "b", 0, true⟩,
        ⟨3, "c", 0, true⟩] : List Item).map some) ∧
    handleDragEnd ([] : List Item) ⟨98, some 99⟩ = some [none] ∧
    some [(none : Option Item)] ≠ some (([] : List Item).map some) := by
  refine ⟨by decide, by decide, by decide, by decide⟩

/-- C1 (amended): `handleDragEnd` is a total function (never throws),
and on a *non-empty* list a drag-end event with `over` non-null,
`active.id ≠ over.id`, and *both* ids absent from the list emits a list
content-equal to the original (the last item is removed and re-inserted
at its own position).  When exactly one of the two ids is absent, or
the list is empty, the emitted list can differ from the original, as
the counterexample shows. -/
theorem drag_end_both_ids_missing_noop (l : List Item) (ev : DragEndEvent)
    (Y : Int) (hne : l ≠ []) (hover : ev.overId = some Y)
    (hXY : ev.activeId ≠ Y) (hX : ev.activeId ∉ ids l) (hY : Y ∉ ids l) :
    handleDragEnd l ev = some (l.map some) := by
  simp only [handleDragEnd, hover]
  rw [if_neg hXY]
  simp only [jsFindIndex, findIdx?_none_of_not_mem hX, findIdx?_none_of_not_mem hY]
  exact congrArg some (arrayMove_neg_one_neg_one hne)

theorem drag_end_both_ids_missing_noop_witness :
    ([(⟨1, "a", 0, true⟩ : Item), ⟨2, "b", 0, true⟩] ≠ []) ∧
    (98 : Int) ∉ ids [(⟨1, "a", 0, true⟩ : Item), ⟨2, "b", 0, true⟩] ∧
    (99 : Int) ∉ ids [(⟨1, "a", 0, true⟩ : Item), ⟨2, "b", 0, true⟩] ∧
    handleDragEnd [(⟨1, "a", 0, true⟩ : Item), ⟨2, "b", 0, true⟩]
        ⟨98, some 99⟩ =
      some ([(⟨1, "a", 0, true⟩ : Item), ⟨2, "b", 0, true⟩].map some) :=
  ⟨by decide, by decide, by decide,
    drag_end_both_ids_missing_noop [⟨1, "a", 0, true⟩, ⟨2, "b", 0, true⟩]
      ⟨98, some 99⟩ 99 (by decide) rfl (by decide) (by decide) (by decide)⟩

/-- C2: `handleDragEnd` is a no-op (emits nothing) when `over` is null
or `active.id = over.id`; when both ids are present at positions `i`
(active) and `j` (over) and the ids differ, it emits exactly the list
obtained by removing the item at `i` and re-inserting it at position
`j` — a permutation of the same item set in which the dragged item
occupies the position the `over` item originally held, and erasing the
moved item from both lists leaves all other items in identical (hence
original) relative order. -/
theorem drag_end_spec (l : List Item) (ev : DragEndEvent) :
    (ev.overId = none → handleDragEnd l ev = none) ∧
    (ev.overId = some ev.activeId → handleDragEnd l ev = none) ∧
    (∀ Y i j, ev.overId = some Y → ev.activeId ≠ Y →
      l.findIdx? (fun item => item.id == ev.activeId) = some i →
      l.findIdx? (fun item => item.id == Y) = some j →
      ∃ hi : i < l.length,
        (l.get ⟨i, hi⟩).id = ev.activeId ∧
        handleDragEnd l ev =
          some (((l.eraseIdx i).insertIdx j (l.get ⟨i, hi⟩)).map some) ∧
        ((l.eraseIdx i).insertIdx j (l.get ⟨i, hi⟩)).Perm l ∧
        ((l.eraseIdx i).insertIdx j (l.get ⟨i, hi⟩)).get? j =
          some (l.get ⟨i, hi⟩) ∧
        ((l.eraseIdx i).insertIdx j (l.get ⟨i, hi⟩)).eraseIdx j =
          l.eraseIdx i) := by
  refine ⟨?_, ?_, ?_⟩
  · intro h
    simp [handleDragEnd, h]
  · intro h
    simp [handleDragEnd, h]
  · intro Y i j hover hne hfi hfj
    obtain ⟨hi, hpi⟩ := findIdx?_some_spec hfi
    obtain ⟨hj, hpj⟩ := findIdx?_some_spec hfj
    have hjle : j ≤ (l.eraseIdx i).length := by
      simp only [List.length_eraseIdx]
      rw [if_pos hi]
      omega
    refine ⟨hi, by simpa using hpi, ?_, ?_, ?_,
      List.eraseIdx_insertIdx j (l.eraseIdx i)⟩
    · simp only [handleDragEnd, hover]
      rw [if_neg hne]
      simp only [jsFindIndex, hfi, hfj]
      rw [arrayMove_of_lt l i j hi hj]
      rfl
    · exact (List.perm_insertIdx _ _ hjle).trans
        (perm_cons_getElem_eraseIdx l i hi).symm
    · have hlt : j < ((l.eraseIdx i).insertIdx j (l.get ⟨i, hi⟩)).length := by
        rw [List.length_insertIdx _ _ hjle]
        omega
      rw [List.get?_eq_getElem?, List.getElem?_eq_getElem hlt]
      exact congrArg some (List.getElem_insertIdx_self _ _ _ hjle)

theorem drag_end_spec_witness :
    ([(⟨1, "a", 0, true⟩ : Item), ⟨2, "b", 0, true⟩,
        ⟨3, "c", 0, true⟩].findIdx? (fun item => item.id == 1) = some 0) ∧
    ([(⟨1, "a", 0, true⟩ : Item), ⟨2, "b", 0, true⟩,
        ⟨3, "c", 0, true⟩].findIdx? (fun item => item.id == 3) = some 2) ∧
    ∃ hi : 0 < ([(⟨1, "a", 0, true⟩ : Item), ⟨2, "b", 0, true⟩,
        ⟨3, "c", 0, true⟩] : List Item).length,
      (([(⟨1, "a", 0, true⟩ : Item), ⟨2, "b", 0, true⟩,
        ⟨3, "c", 0, true⟩] : List Item).get ⟨0, hi⟩).id = (1 : Int) ∧
      handleDragEnd [(⟨1, "a", 0, true⟩ : Item), ⟨2, "b", 0, true⟩,
          ⟨3, "c", 0, true⟩] ⟨1, some 3⟩ =
        some (((([(⟨1, "a", 0, true⟩ : Item), ⟨2, "b", 0, true⟩,
          ⟨3, "c", 0, true⟩] : List Item).eraseIdx 0).insertIdx 2
            (([(⟨1, "a", 0, true⟩ : Item), ⟨2, "b", 0, true⟩,
              ⟨3, "c", 0, true⟩] : List Item).get ⟨0, hi⟩)).map some) ∧
      ((([(⟨1, "a", 0, true⟩ : Item), ⟨2, "b", 0, true⟩,
          ⟨3, "c", 0, true⟩] : List Item).eraseIdx 0).insertIdx 2
            (([(⟨1, "a", 0, true⟩ : Item), ⟨2, "b", 0, true⟩,
              ⟨3, "c", 0, true⟩] : List Item).get ⟨0, hi⟩)).Perm
        [(⟨1, "a", 0, true⟩ : Item), ⟨2, "b", 0, true⟩, ⟨3, "c", 0, true⟩] ∧
      ((([(⟨1, "a", 0, true⟩ : Item), ⟨2, "b", 0, true⟩,
          ⟨3, "c", 0, true⟩] : List Item).eraseIdx 0).insertIdx 2
            (([(⟨1, "a", 0, true⟩ : Item), ⟨2, "b", 0, true⟩,
              ⟨3, "c", 0, true⟩] : List Item).get ⟨0, hi⟩)).get? 2 =
        some (([(⟨1, "a", 0, true⟩ : Item), ⟨2, "b", 0, true⟩,
          ⟨3, "c", 0, true⟩] : List Item).get ⟨0, hi⟩) ∧
      ((([(⟨1, "a", 0, true⟩ : Item), ⟨2, "b", 0, true⟩,
          ⟨3, "c", 0, true⟩] : List Item).eraseIdx 0).insertIdx 2
            (([(⟨1, "a", 0, true⟩ : Item), ⟨2, "b", 0, true⟩,
              ⟨3, "c", 0, true⟩] : List Item).get ⟨0, hi⟩)).eraseIdx 2 =
        ([(⟨1, "a", 0, true⟩ : Item), ⟨2, "b", 0, true⟩,
          ⟨3, "c", 0, true⟩] : List Item).eraseIdx 0 :=
  ⟨by decide, by decide,
    (drag_end_spec [⟨1, "a", 0, true⟩, ⟨2, "b", 0, true⟩, ⟨3, "c", 0, true⟩]
      ⟨1, some 3⟩).2.2 3 0 2 rfl (by decide) (by decide) (by decide)⟩

/-- C7: each of the five operations preserves the pairwise-distinct-ids
invariant on every list emitted to `setAttributes`: `addItem` and
`duplicateItem` append a fresh id strictly above the current maximum,
`removeItem` emits a sublist, `toggleCollapse` keeps ids unchanged, and
`handleDragEnd` emits a rearrangement holding the same ids. -/
theorem ops_preserve_distinct_ids (control : Option Control) (l : List Item)
    (id now : Int) (ev : DragEndEvent) (hd : distinctIds l) :
    distinctIds (addItem l now) ∧
    (∀ l', removeItem control l id = some l' → distinctIds l') ∧
    (∀ l', duplicateItem l id = some l' → distinctIds l') ∧
    distinctIds (toggleCollapse l id) ∧
    (∀ l', handleDragEnd l ev = some l' → distinctIdsOpt l') := by
  refine ⟨distinctIds_append_fresh hd rfl, ?_, ?_, ?_, ?_⟩
  · intro l' h
    unfold removeItem at h
    split at h
    · cases h
    · cases h
      exact List.Nodup.sublist ((List.filter_sublist l).map _) hd
  · intro l' h
    unfold duplicateItem at h
    split at h
    · cases h
    · cases h
      exact distinctIds_append_fresh hd rfl
  · show (ids _).Nodup
    rw [ids_toggleCollapse]
    exact hd
  · intro l' h
    unfold handleDragEnd at h
    split at h
    · cases h
    · split at h
      · cases h
      · cases h
        exact distinctIdsOpt_arrayMove hd _ _

theorem ops_preserve_distinct_ids_witness :
    distinctIds [(⟨1, "a", 0, true⟩ : Item), ⟨2, "b", 0, true⟩] ∧
    distinctIds (addItem [(⟨1, "a", 0, true⟩ : Item), ⟨2, "b", 0, true⟩] 5) ∧
    distinctIds (toggleCollapse
      [(⟨1, "a", 0, true⟩ : Item), ⟨2, "b", 0, true⟩] 1) :=
  ⟨by decide,
    (ops_preserve_distinct_ids none [⟨1, "a", 0, true⟩, ⟨2, "b", 0, true⟩]
      1 5 ⟨1, some 2⟩ (by decide)).1,
    (ops_preserve_distinct_ids none [⟨1, "a", 0, true⟩, ⟨2, "b", 0, true⟩]
      1 5 ⟨1, some 2⟩ (by decide)).2.2.2.1⟩

end GutenbergControls
